import Mathlib

/-!
Verification development for the workflow-concurrency-validator action
(`src/validate-concurrency.ts`).  The TypeScript analysis pipeline is
shallowly embedded as executable Lean functions: JavaScript `Map` and
`Set` objects become insertion-ordered association lists, JavaScript
regular-expression matching over the concrete patterns used by the
source is implemented character by character, and the per-file analysis
(`analyzeWorkflow`) together with the top-level run loop is modelled as
pure functions.  Logging (`Logger.*`) has no effect on any computed
result and is omitted; the one semantically visible log event, the
circular-dependency warning, is modelled by the leftover set of the
level partitioner being nonempty.
-/

namespace WorkflowConcurrency

/-! ## Insertion-ordered maps and sets (JavaScript `Map` / `Set` / object semantics) -/

/-- Lookup in an insertion-ordered association list (`Map.get` / object indexing). -/
def alookup {α : Type} (m : List (String × α)) (k : String) : Option α :=
  match m with
  | [] => none
  | (k0, v0) :: rest => if k0 = k then some v0 else alookup rest k

/-- `Map.set`: replace the value in place when the key is present, append otherwise. -/
def aset {α : Type} (m : List (String × α)) (k : String) (v : α) : List (String × α) :=
  match m with
  | [] => [(k, v)]
  | (k0, v0) :: rest => if k0 = k then (k, v) :: rest else (k0, v0) :: aset rest k v

/-- `Set.add`: append the element unless it is already present. -/
def setInsert (l : List String) (x : String) : List String :=
  if x ∈ l then l else l ++ [x]

/-- `new Set(list)`: deduplicate, keeping the first occurrence of each element. -/
def setOfList (l : List String) : List String :=
  l.foldl setInsert []

/-! ## Character classes and basic string operations -/

/-- The regex class `[\w-]` (JavaScript `\w` is ASCII `[A-Za-z0-9_]`). -/
def isWordChar (c : Char) : Bool :=
  c.isAlphanum || c = '_' || c = '-'

/-- The regex class `\s` restricted to the ASCII whitespace characters
(the inputs handled by the tool are ASCII YAML text). -/
def isSpaceChar (c : Char) : Bool :=
  c = ' ' || c = '\t' || c = '\n' || c = '\r' || c = '\x0b' || c = '\x0c'

/-- The single-quote character (written via its code point). -/
def squote : Char := Char.ofNat 39

/-- Substring test on character lists, used for `String.prototype.includes`. -/
def listContainsSub (s pat : List Char) : Bool :=
  match s with
  | [] => pat.isEmpty
  | c :: rest => pat.isPrefixOf (c :: rest) || listContainsSub rest pat

/-- JavaScript `value.includes(pat)`. -/
def containsSubstr (s pat : String) : Bool :=
  listContainsSub s.toList pat.toList

/-- JavaScript `String.prototype.trim` (ASCII whitespace), on character lists. -/
def trimChars (cs : List Char) : List Char :=
  ((cs.dropWhile isSpaceChar).reverse.dropWhile isSpaceChar).reverse

/-- JavaScript `String.prototype.split` with a single-character separator:
`"".split(sep)` is `[""]`, and adjacent separators yield empty pieces. -/
def splitOnChar (sep : Char) : List Char → List (List Char)
  | [] => [[]]
  | c :: rest =>
    let r := splitOnChar sep rest
    if c = sep then [] :: r
    else
      match r with
      | [] => [[c]]  -- unreachable: the result is always nonempty
      | h :: t => (c :: h) :: t

/-- Numeric value of a decimal digit run. -/
def decValue (ds : List Char) : Nat :=
  ds.foldl (fun a c => a * 10 + (c.toNat - 48)) 0

/-- Hexadecimal digit test. -/
def isHexDigit (c : Char) : Bool :=
  c.isDigit || (('a' ≤ c) && (c ≤ 'f')) || (('A' ≤ c) && (c ≤ 'F'))

/-- Numeric value of one hexadecimal digit. -/
def hexDigitValue (c : Char) : Nat :=
  if c.isDigit then c.toNat - 48
  else if ('a' ≤ c) && (c ≤ 'f') then c.toNat - 87
  else c.toNat - 55

/-- Numeric value of a hexadecimal digit run. -/
def hexValue (ds : List Char) : Nat :=
  ds.foldl (fun a c => a * 16 + hexDigitValue c) 0

/-- JavaScript `parseInt(s)` with the default radix: leading whitespace,
optional sign, optional `0x`/`0X` hexadecimal prefix, then the maximal
digit run; `none` models `NaN`. -/
def parseIntJS (s : String) : Option Int :=
  let cs := s.toList.dropWhile isSpaceChar
  let signAndRest : Int × List Char :=
    match cs with
    | '-' :: r => (-1, r)
    | '+' :: r => (1, r)
    | _ => (1, cs)
  let sign := signAndRest.1
  let cs2 := signAndRest.2
  match cs2 with
  | '0' :: x :: rest =>
    if x = 'x' || x = 'X' then
      let ds := rest.takeWhile isHexDigit
      if ds.isEmpty then none else some (sign * Int.ofNat (hexValue ds))
    else
      let ds := cs2.takeWhile Char.isDigit
      if ds.isEmpty then none else some (sign * Int.ofNat (decValue ds))
  | _ =>
    let ds := cs2.takeWhile Char.isDigit
    if ds.isEmpty then none else some (sign * Int.ofNat (decValue ds))

/-- `process.env.X || dflt`: the default is used when the variable is absent
or the empty string (which is falsy in JavaScript). -/
def envOr (v : Option String) (dflt : String) : String :=
  match v with
  | none => dflt
  | some s => if s = "" then dflt else s

/-! ## The `needs.<task>.outputs.<key>` reference patterns

`extractFromJsonReference` (source lines 235-266) tries three regular
expressions in order:
1. `fromJSON\s*\(\s*needs\.([\w-]+)\.outputs\.([\w-]+)\s*\)`
2. `fromJSON.*needs\.([\w-]+)\.outputs\.([\w-]+)`  (greedy `.*`, no newline)
3. `needs\.([\w-]+)\.outputs\.([\w-]+)`
Each is modelled by a left-to-right scan over start positions; the greedy
`.*` of pattern 2 selects the rightmost reference on the same line. -/

/-- Match `needs\.([\w-]+)\.outputs\.([\w-]+)` anchored at the head of the
input, returning the two captures and the remaining characters. -/
def matchNeedsRefAt (cs : List Char) : Option ((String × String) × List Char) :=
  if ("needs.").toList.isPrefixOf cs then
    let r1 := cs.drop 6
    let w1 := r1.takeWhile isWordChar
    let r2 := r1.dropWhile isWordChar
    if w1.isEmpty then none
    else if (".outputs.").toList.isPrefixOf r2 then
      let r3 := r2.drop 9
      let w2 := r3.takeWhile isWordChar
      let r4 := r3.dropWhile isWordChar
      if w2.isEmpty then none
      else some ((String.mk w1, String.mk w2), r4)
    else none
  else none

/-- Leftmost match of the bare `needs\.([\w-]+)\.outputs\.([\w-]+)` pattern. -/
def findNeedsRef : List Char → Option (String × String)
  | [] => none
  | c :: rest =>
    match matchNeedsRefAt (c :: rest) with
    | some (r, _) => some r
    | none => findNeedsRef rest

/-- Rightmost match of the bare reference pattern (the greedy `.*` of
pattern 2 backtracks from the right). -/
def findNeedsRefRightmost : List Char → Option (String × String)
  | [] => none
  | c :: rest =>
    match findNeedsRefRightmost rest with
    | some r => some r
    | none =>
      match matchNeedsRefAt (c :: rest) with
      | some (r, _) => some r
      | none => none

/-- Match pattern 1 anchored at the head of the input. -/
def matchFromJsonParenAt (cs : List Char) : Option (String × String) :=
  if ("fromJSON").toList.isPrefixOf cs then
    let r1 := (cs.drop 8).dropWhile isSpaceChar
    match r1 with
    | '(' :: r2 =>
      match matchNeedsRefAt (r2.dropWhile isSpaceChar) with
      | some (ref, r3) =>
        match r3.dropWhile isSpaceChar with
        | ')' :: _ => some ref
        | _ => none
      | none => none
    | _ => none
  else none

/-- Leftmost match of pattern 1. -/
def findPattern1 : List Char → Option (String × String)
  | [] => none
  | c :: rest =>
    match matchFromJsonParenAt (c :: rest) with
    | some r => some r
    | none => findPattern1 rest

/-- Leftmost start position of pattern 2: a `fromJSON` occurrence followed,
on the same line, by a bare reference (the greedy `.*` picks the rightmost). -/
def findPattern2 : List Char → Option (String × String)
  | [] => none
  | c :: rest =>
    match
      (if ("fromJSON").toList.isPrefixOf (c :: rest) then
        findNeedsRefRightmost (((c :: rest).drop 8).takeWhile (fun ch => ch ≠ '\n'))
      else none) with
    | some r => some r
    | none => findPattern2 rest

/-- `extractFromJsonReference` (source lines 235-266). -/
def extractFromJsonReference (value : String) : Option (String × String) :=
  let cs := value.toList
  match findPattern1 cs with
  | some r => some r
  | none =>
    match findPattern2 cs with
    | some r => some r
    | none => findNeedsRef cs

/-! ## `extractArraySize` (source lines 149-180)

The lazy regex `\[(.*?)\]` finds the leftmost `[` whose closing `]`
occurs before any newline; the capture is everything in between.  The
follow-up global regex `(['"])(.*?)\1` counts non-overlapping quoted
substrings. -/

/-- Characters between the head position (just past a `[`) and the first
`]`, failing when a newline or the end of input intervenes. -/
def bracketContentFrom : List Char → Option (List Char)
  | [] => none
  | c :: rest =>
    if c = ']' then some []
    else if c = '\n' then none
    else (bracketContentFrom rest).map (fun l => c :: l)

/-- The capture of the leftmost successful `\[(.*?)\]` match. -/
def firstBracketMatch : List Char → Option (List Char)
  | [] => none
  | c :: rest =>
    if c = '[' then
      match bracketContentFrom rest with
      | some content => some content
      | none => firstBracketMatch rest
    else firstBracketMatch rest

/-- Scan for the closing quote `q` (the lazy `.` of `(.*?)\1` does not cross
a newline); returns the index of the closing quote. -/
def findClosingIdx (q : Char) : List Char → Option Nat
  | [] => none
  | c :: rest =>
    if c = q then some 0
    else if c = '\n' then none
    else (findClosingIdx q rest).map (fun i => i + 1)

/-- Number of matches of the global regex `(['"])(.*?)\1`: after a match the
scan resumes past the closing quote; after an unclosed opening quote it
resumes at the next character. -/
def countQuoted (cs : List Char) : Nat :=
  match cs with
  | [] => 0
  | c :: rest =>
    if c = squote || c = '"' then
      match findClosingIdx c rest with
      | some i => 1 + countQuoted (rest.drop (i + 1))
      | none => countQuoted rest
    else countQuoted rest
termination_by cs.length
decreasing_by
  · simp only [List.length_cons, List.length_drop]
    omega
  · simp
  · simp

/-- `extractArraySize` (source lines 149-180). -/
def extractArraySize (value : String) : Nat :=
  let cs := value.toList
  if !cs.contains '[' then 1
  else
    match firstBracketMatch cs with
    | none => 1
    | some content =>
      -- `!arrayMatch[1]`: an empty capture is falsy
      if content.isEmpty then 1
      else
        let elements :=
          ((splitOnChar ',' content).map trimChars).filter
            (fun s => s.length > 0 && s ≠ ['"'] && s ≠ [squote])
        if elements.length > 0 then elements.length
        else
          let quotedStrings := countQuoted content
          if quotedStrings > 0 then quotedStrings
          else 3

/-! ## `extractArraySizesFromSteps` (source lines 187-228)

Per line of each step's `run` script, the regex
`echo\s+(['"])([^=]+)=\[(.*?)\]\1\s*>>\s*.*GITHUB_OUTPUT`
is matched; the size is the number of comma-separated items of the
bracket capture (`split(',').length`, no trimming or filtering). -/

/-- After the candidate `]`: the backreference `\1`, `\s*>>\s*`, then
`.*GITHUB_OUTPUT` (an occurrence anywhere in the rest of the line). -/
def echoSuffixOk (q : Char) (cs : List Char) : Bool :=
  match cs with
  | [] => false
  | c :: r1 =>
    if c = q then
      match r1.dropWhile isSpaceChar with
      | '>' :: '>' :: r3 => listContainsSub r3 (("GITHUB_OUTPUT").toList)
      | _ => false
    else false

/-- Lazy `(.*?)\]` followed by the suffix test: the first `]` whose suffix
matches ends the capture; a failing `]` becomes part of the capture. -/
def echoFindClose (q : Char) : List Char → Option (List Char)
  | [] => none
  | c :: rest =>
    if c = ']' && echoSuffixOk q rest then some []
    else (echoFindClose q rest).map (fun l => c :: l)

/-- The echo-output regex anchored at the head of the line, returning the
output key and the bracket capture. -/
def echoMatchAt (cs : List Char) : Option (String × List Char) :=
  if ("echo").toList.isPrefixOf cs then
    let r1 := cs.drop 4
    let sp := r1.takeWhile isSpaceChar
    let r2 := r1.dropWhile isSpaceChar
    if sp.isEmpty then none
    else
      match r2 with
      | q :: r3 =>
        if q = squote || q = '"' then
          let key := r3.takeWhile (fun c => c ≠ '=')
          let r4 := r3.dropWhile (fun c => c ≠ '=')
          if key.isEmpty then none
          else
            match r4 with
            | '=' :: '[' :: r5 =>
              match echoFindClose q r5 with
              | some content => some (String.mk key, content)
              | none => none
            | _ => none
        else none
      | [] => none
  else none

/-- Leftmost match of the echo-output regex on one line. -/
def echoLineScan : List Char → Option (String × List Char)
  | [] => none
  | c :: rest =>
    match echoMatchAt (c :: rest) with
    | some r => some r
    | none => echoLineScan rest

/-! ## Data model (source lines 9-56)

`needs` may be a single string or an array (`string | string[]`); a
matrix dimension value may be an array, a string, or some other YAML
value (the code checks `Array.isArray` and `typeof value === 'string'`).
`outputs` values are strings per the `WorkflowJob` interface, so the
`typeof value === 'string'` guard of `getMatrixProviders` always
passes.  A step's `run` field is a string when present. -/

/-- The `needs` field: `string | string[]`. -/
inductive NeedsValue where
  | single (s : String)
  | list (xs : List String)
deriving DecidableEq, Repr

/-- A matrix dimension value in `strategy.matrix`. -/
inductive MatrixValue where
  | arr (elems : List String)
  | str (s : String)
  | other
deriving DecidableEq, Repr

/-- A workflow step (only its `run` script is inspected). -/
structure WorkflowStep where
  run : Option String
deriving DecidableEq, Repr

/-- `strategy` of a job (only its `matrix` is inspected). -/
structure JobStrategy where
  matrix : Option (List (String × MatrixValue))
deriving DecidableEq, Repr

/-- A job in a workflow file (interface `WorkflowJob`). -/
structure WorkflowJob where
  needs : Option NeedsValue
  strategy : Option JobStrategy
  outputs : Option (List (String × String))
  steps : Option (List WorkflowStep)
deriving DecidableEq, Repr

/-- A parsed workflow file (interface `WorkflowFile`); the jobs mapping is
kept in JavaScript object enumeration order. -/
structure WorkflowFile where
  jobs : Option (List (String × WorkflowJob))
deriving DecidableEq, Repr

/-- Interface `MatrixProvider` (source lines 51-56). -/
structure MatrixProvider where
  jobKey : String
  outputKey : String
  size : Nat
  consumers : List String
deriving DecidableEq, Repr

/-- Interface `ConcurrencyDetail` as populated by `analyzeWorkflow`. -/
structure ConcurrencyDetail where
  file : String
  jobs : List String
  count : Nat
  counted : Bool
deriving DecidableEq, Repr

/-- Interface `WorkflowValidationResult`. -/
structure WorkflowValidationResult where
  file : String
  concurrencyCount : Nat
  passed : Bool
  details : List ConcurrencyDetail
deriving DecidableEq, Repr

/-- JavaScript truthiness of the `needs` field: absent and the empty
string are falsy, every array (even empty) is truthy. -/
def needsTruthy (needs : Option NeedsValue) : Bool :=
  match needs with
  | none => false
  | some (NeedsValue.single s) => s ≠ ""
  | some (NeedsValue.list _) => true

/-- `Array.isArray(job.needs) ? job.needs : [job.needs]`. -/
def needsList (needs : Option NeedsValue) : List String :=
  match needs with
  | some (NeedsValue.single s) => [s]
  | some (NeedsValue.list xs) => xs
  | none => []

/-- `job.strategy?.matrix`. -/
def jobMatrix (job : WorkflowJob) : Option (List (String × MatrixValue)) :=
  match job.strategy with
  | none => none
  | some st => st.matrix

/-! ## `extractArraySizesFromSteps` and `getMatrixProviders` (source lines 187-331) -/

/-- `extractArraySizesFromSteps` (source lines 187-228): scan every line of
every step's `run` script for the echo-output pattern; the recorded size
is `split(',').length` of the bracket capture. -/
def extractArraySizesFromSteps (workflow : WorkflowFile) : List (String × Nat) :=
  match workflow.jobs with
  | none => []
  | some jobs =>
    jobs.foldl (fun acc kv =>
      let jobKey := kv.1
      let job := kv.2
      (job.steps.getD []).foldl (fun acc step =>
        match step.run with
        | some r =>
          if r ≠ "" then
            (splitOnChar '\n' r.toList).foldl (fun acc line =>
              match echoLineScan line with
              | some (outputKey, content) =>
                let size := (splitOnChar ',' content).length
                aset acc (jobKey ++ "." ++ outputKey) size
              | none => acc) acc
          else acc
        | none => acc) acc) []

/-- `getMatrixProviders` (source lines 273-331): one provider per string
output, sized from the step scan, from an inline bracket literal in the
output expression, or defaulting to 3; then consumers are linked. -/
def getMatrixProviders (workflow : WorkflowFile) : List (String × MatrixProvider) :=
  match workflow.jobs with
  | none => []
  | some jobs =>
    let arraySizesFromSteps := extractArraySizesFromSteps workflow
    let providers := jobs.foldl (fun provs kv =>
      let jobKey := kv.1
      let job := kv.2
      match job.outputs with
      | none => provs
      | some outs => outs.foldl (fun provs ov =>
          let outputKey := ov.1
          let value := ov.2
          let providerKey := jobKey ++ "." ++ outputKey
          let size :=
            match alookup arraySizesFromSteps providerKey with
            | some s => if s = 0 then 3 else s  -- `get(providerKey) || 3`
            | none =>
              if containsSubstr value ("[") then extractArraySize value else 3
          aset provs providerKey ⟨jobKey, outputKey, size, []⟩) provs) []
    jobs.foldl (fun provs kv =>
      let jobKey := kv.1
      let job := kv.2
      match jobMatrix job with
      | none => provs
      | some dims => dims.foldl (fun provs dim =>
          match dim.2 with
          | MatrixValue.str value =>
            if containsSubstr value ("fromJSON") then
              match extractFromJsonReference value with
              | some (jk, ok) =>
                let providerKey := jk ++ "." ++ ok
                match alookup provs providerKey with
                | some provider =>
                  aset provs providerKey
                    { provider with consumers := setInsert provider.consumers jobKey }
                | none => provs
              | none => provs
            else provs
          | _ => provs) provs) providers

/-! ## `calculateMatrixSize` (source lines 339-406) -/

/-- The body of the per-dimension loop of `calculateMatrixSize` (source
lines 348-386), acting on the `(matrixSize, usesFromJson)` accumulator. -/
def matrixDimStep (matrixProviders : List (String × MatrixProvider))
    (acc : Nat × Bool) (dim : String × MatrixValue) : Nat × Bool :=
  match dim.2 with
  | MatrixValue.arr elems => (acc.1 * elems.length, acc.2)
  | MatrixValue.str value =>
    if containsSubstr value ("fromJSON") then
      let reference :=
        match extractFromJsonReference value with
        | some r => some r
        | none =>
          -- lines 359-367: retry with the bare `needs.X.outputs.Y` pattern
          if containsSubstr value ("needs.") then findNeedsRef value.toList
          else none
      match reference with
      | some (jk, ok) =>
        match alookup matrixProviders (jk ++ "." ++ ok) with
        | some provider => (acc.1 * provider.size, true)
        | none => (acc.1 * 3, true)
      | none =>
        if containsSubstr value ("fromJSON") && containsSubstr value ("needs.")
            && containsSubstr value ("outputs") then
          (acc.1 * 3, true)
        else (acc.1, true)
    else acc
  | MatrixValue.other => acc

/-- `calculateMatrixSize` (source lines 339-406), including the
special-case fallback over the job's `needs` (lines 388-403). -/
def calculateMatrixSize (job : WorkflowJob)
    (matrixProviders : List (String × MatrixProvider)) : Nat :=
  match jobMatrix job with
  | none => 1
  | some dims =>
    let folded := dims.foldl (matrixDimStep matrixProviders) (1, false)
    let matrixSize := folded.1
    let usesFromJson := folded.2
    if usesFromJson && needsTruthy job.needs then
      (needsList job.needs).foldl (fun ms need =>
        if ms = 1 then
          match matrixProviders.find? (fun p => p.2.jobKey = need && p.2.size > 1) with
          | some p => p.2.size
          | none => ms
        else ms) matrixSize
    else matrixSize

/-! ## `calculateLevelConcurrency` (source lines 415-497)

Note: `processedJobs` is consulted only in the final loop over the
level, not inside the loop over `jobsByProvider`; a job appearing in
several provider groups (or several times in one group, one entry per
matching dimension) is therefore added to the total once per entry.
Level members are always keys of the jobs mapping, so the lookups of
`jobs[jobKey]` are modelled with an unreachable fallback. -/

/-- `calculateLevelConcurrency` (source lines 415-497). -/
def calculateLevelConcurrency (level : List String)
    (jobs : List (String × WorkflowJob))
    (matrixProviders : List (String × MatrixProvider)) : Nat :=
  -- group jobs by provider (lines 427-457)
  let jobsByProvider := level.foldl (fun groups jobKey =>
    match alookup jobs jobKey with
    | none => groups
    | some job =>
      match jobMatrix job with
      | none => groups
      | some dims => dims.foldl (fun groups dim =>
          match dim.2 with
          | MatrixValue.str value =>
            if containsSubstr value ("fromJSON") then
              match extractFromJsonReference value with
              | some (jk, ok) =>
                let providerKey := jk ++ "." ++ ok
                if (alookup matrixProviders providerKey).isSome then
                  match alookup groups providerKey with
                  | some lst => aset groups providerKey (lst ++ [jobKey])
                  | none => aset groups providerKey [jobKey]
                else groups
              | none => groups
            else groups
          | _ => groups) groups) (([] : List (String × List String)))
  -- process jobs grouped by provider (lines 460-474)
  let processedAndTotal := jobsByProvider.foldl (fun (acc : List String × Nat) group =>
    match alookup matrixProviders group.1 with
    | some _ => group.2.foldl (fun (acc : List String × Nat) jobKey =>
        let matrixSize :=
          match alookup jobs jobKey with
          | some job => calculateMatrixSize job matrixProviders
          | none => 1  -- unreachable: level members are keys of `jobs`
        (setInsert acc.1 jobKey, acc.2 + matrixSize)) acc
    | none => acc) (([], 0) : List String × Nat)
  -- process remaining jobs (lines 477-493)
  level.foldl (fun total jobKey =>
    if jobKey ∈ processedAndTotal.1 then total
    else
      match alookup jobs jobKey with
      | some job => total + calculateMatrixSize job matrixProviders
      | none => total) processedAndTotal.2

/-! ## Dependency graph and level partition (source lines 556-588) -/

/-- Build the dependency map (source lines 556-568): every job key starts
with an empty set, then each truthy `needs` entry is added. -/
def buildDependencyMap (jobs : List (String × WorkflowJob)) : List (String × List String) :=
  let base := jobs.foldl (fun m kv => aset m kv.1 []) []
  jobs.foldl (fun m kv =>
    if needsTruthy kv.2.needs then
      (needsList kv.2.needs).foldl (fun m need =>
        match alookup m kv.1 with
        | some deps => aset m kv.1 (setInsert deps need)
        | none => m) m
    else m) base

/-- The readiness filter of the level loop (source lines 575-578): a job is
ready when its dependency set exists and no dependency is still remaining. -/
def readyJob (dependencyMap : List (String × List String))
    (remaining : List String) (job : String) : Bool :=
  match alookup dependencyMap job with
  | some deps => deps.all (fun dep => !remaining.contains dep)
  | none => false

/-- The `while (remainingJobs.size > 0)` loop (source lines 574-588):
extract all ready jobs as the next level; when no job is ready while
jobs remain, break (circular-dependency warning) and leave them
unassigned.  Returns the levels and the leftover (unassigned) jobs. -/
def levelLoop (dependencyMap : List (String × List String))
    (remaining : List String) : List (List String) × List String :=
  if remaining.isEmpty then ([], [])
  else
    let currentLevel := remaining.filter (readyJob dependencyMap remaining)
    if h : currentLevel.isEmpty then ([], remaining)
    else
      let rest := remaining.filter (fun job => !currentLevel.contains job)
      let recres := levelLoop dependencyMap rest
      (currentLevel :: recres.1, recres.2)
termination_by remaining.length
decreasing_by
  have hne : remaining.filter (readyJob dependencyMap remaining) ≠ [] := by
    intro hnil
    apply h
    show (List.filter (readyJob dependencyMap remaining) remaining).isEmpty = true
    rw [hnil]
    rfl
  obtain ⟨x, hx⟩ := List.exists_mem_of_ne_nil _ hne
  have hxr : x ∈ remaining := (List.mem_filter.mp hx).1
  refine List.length_filter_lt_length_iff_exists.mpr ⟨x, hxr, ?_⟩
  simp [hx]

/-- Fuel-bounded (structurally recursive) version of `levelLoop`, used to
evaluate the partition on concrete inputs; `levelLoop_eq_fuel` shows it
agrees with `levelLoop` whenever the fuel is at least the number of
remaining jobs (each iteration of the loop removes at least one job). -/
def levelLoopFuel (dependencyMap : List (String × List String)) :
    Nat → List String → List (List String) × List String
  | 0, remaining => ([], remaining)
  | fuel + 1, remaining =>
    if remaining.isEmpty then ([], [])
    else
      let currentLevel := remaining.filter (readyJob dependencyMap remaining)
      if currentLevel.isEmpty then ([], remaining)
      else
        let rest := remaining.filter (fun job => !currentLevel.contains job)
        let recres := levelLoopFuel dependencyMap fuel rest
        (currentLevel :: recres.1, recres.2)

/-- The level partition of a jobs mapping: the levels and the leftover
jobs, starting from `new Set(Object.keys(jobs))`. -/
def jobLevelsOf (jobs : List (String × WorkflowJob)) : List (List String) × List String :=
  levelLoop (buildDependencyMap jobs) (setOfList (jobs.map Prod.fst))

/-- The circular-dependency warning (source lines 580-584) is emitted
exactly when the loop breaks with jobs still remaining, i.e. when the
leftover set is nonempty. -/
def cycleWarningEmitted (jobs : List (String × WorkflowJob)) : Bool :=
  !(jobLevelsOf jobs).2.isEmpty

/-! ## `analyzeWorkflow` (source lines 505-661)

The shared-matrix detection block (lines 521-542) and all per-level
logging (lines 593-643) only produce log output and are omitted; the
`details` entries and the running maximum (lines 645-652) are kept. -/

/-- `analyzeWorkflow` (source lines 505-661).  The configured ceiling
(global `MAX_CONCURRENCY`) is passed explicitly; `validateInputs`
guarantees it is positive in any run that reaches this function. -/
def analyzeWorkflow (workflow : WorkflowFile) (relativeFilePath : String)
    (maxConcurrencyLimit : Nat) : WorkflowValidationResult :=
  match workflow.jobs with
  | none =>
    { file := relativeFilePath
      concurrencyCount := 0
      passed := true
      details := [] }
  | some jobs =>
    let matrixProviders := getMatrixProviders workflow
    let jobLevels := (jobLevelsOf jobs).1
    let detailsAndMax := jobLevels.foldl
      (fun (acc : List ConcurrencyDetail × Nat) level =>
        if level.isEmpty then acc
        else
          (acc.1 ++ [{ file := relativeFilePath
                       jobs := level
                       count := calculateLevelConcurrency level jobs matrixProviders
                       counted := true }],
           Nat.max acc.2 (calculateLevelConcurrency level jobs matrixProviders))) ([], 0)
    { file := relativeFilePath
      concurrencyCount := detailsAndMax.2
      passed := decide (detailsAndMax.2 ≤ maxConcurrencyLimit)
      details := detailsAndMax.1 }

/-! ## Top-level run (source lines 109-114, 663-767)

Parsing errors for individual files and the file-discovery glob are
external concerns; a run is modelled by the list of already-parsed
files.  `processWorkflowFile` is the body of the `workflowFiles.forEach`
(lines 678-719): a file whose parsed tree has no `jobs` mapping is
analyzed but the early `return` at line 693 happens before
`workflowResults.push(result)` at line 709, so its result is not
appended. -/

/-- One iteration of the per-file loop: analyze, then append the result
unless the file has no `jobs` mapping (early return, line 693). -/
def processWorkflowFile (maxConcurrencyLimit : Nat)
    (acc : List WorkflowValidationResult)
    (file : String × WorkflowFile) : List WorkflowValidationResult :=
  let result := analyzeWorkflow file.2 file.1 maxConcurrencyLimit
  match file.2.jobs with
  | none => acc
  | some _ => acc ++ [result]

/-- Outcome of one run: whether a fatal error was caught at top level,
whether `process.exit(1)` was invoked, the collected
`workflow_results`, and the `validation_passed` output. -/
structure RunOutcome where
  fatalError : Bool
  exitFailure : Bool
  workflowResults : List WorkflowValidationResult
  validationPassedOutput : Bool
deriving DecidableEq, Repr

/-- The `validateInputs` check (source lines 109-114) on the raw
`max-concurrency` input: invalid when `parseInt` yields `NaN` or a
value `≤ 0`. -/
def invalidCeiling (inputMaxConcurrency : Option String) : Bool :=
  match parseIntJS (envOr inputMaxConcurrency ("10")) with
  | none => true
  | some m => decide (m ≤ 0)

/-- The top-level `try`/`catch` (source lines 663-767): an invalid ceiling
throws before any file is processed and the `catch` calls
`process.exit(1)` only when `FAIL_ON_ERROR` is set; otherwise every file
is processed in order and the exit is failing iff some processed file
failed validation and `FAIL_ON_ERROR` is set. -/
def runValidation (inputMaxConcurrency : Option String) (failOnError : Bool)
    (files : List (String × WorkflowFile)) : RunOutcome :=
  match parseIntJS (envOr inputMaxConcurrency ("10")) with
  | none =>
    { fatalError := true, exitFailure := failOnError
      workflowResults := [], validationPassedOutput := false }
  | some m =>
    if m ≤ 0 then
      { fatalError := true, exitFailure := failOnError
        workflowResults := [], validationPassedOutput := false }
    else
      let maxConcurrencyLimit := m.toNat
      let results := files.foldl (processWorkflowFile maxConcurrencyLimit) []
      let anyFailures := results.any (fun r => !r.passed)
      { fatalError := false
        exitFailure := anyFailures && failOnError
        workflowResults := results
        validationPassedOutput := !anyFailures }

/-! ## Derived notions used in the statements of the claims -/

/-- The multiplicative contribution of one matrix dimension to
`calculateMatrixSize` (the loop of lines 348-386 is a product over the
dimensions; see `List.foldl_matrixDimStep`). -/
def dimFactor (matrixProviders : List (String × MatrixProvider))
    (dim : String × MatrixValue) : Nat :=
  (matrixDimStep matrixProviders (1, false) dim).1

/-- Whether one matrix dimension sets the `usesFromJson` flag. -/
def dimUsesFromJson (matrixProviders : List (String × MatrixProvider))
    (dim : String × MatrixValue) : Bool :=
  (matrixDimStep matrixProviders (1, false) dim).2

/-- Restrict every dependency set of a dependency map to the declared job
keys, i.e. drop every dependency on an undeclared job. -/
def restrictDeps (dependencyMap : List (String × List String))
    (declared : List String) : List (String × List String) :=
  dependencyMap.map (fun kd => (kd.1, kd.2.filter (fun dep => declared.contains dep)))

/-- A decidable witness that every member of `c` is a declared job with
some dependency inside `c` (how a dependency cycle is recognised: a
nonempty such `c` exists iff the declared dependency relation has a
cycle). -/
def cycleSetWitness (jobs : List (String × WorkflowJob)) (c : List String) : Bool :=
  !c.isEmpty &&
    c.all (fun x =>
      (setOfList (jobs.map Prod.fst)).contains x &&
        match alookup (buildDependencyMap jobs) x with
        | some deps => deps.any (fun dep => c.contains dep)
        | none => true)

/-- Whether a matrix dimension value is an explicit (static) sequence. -/
def isStaticDim (dim : String × MatrixValue) : Bool :=
  match dim.2 with
  | MatrixValue.arr _ => true
  | _ => false

/-- The length of an explicit dimension sequence (0 for non-sequences;
only used beneath an `isStaticDim` hypothesis). -/
def staticDimLen (dim : String × MatrixValue) : Nat :=
  match dim.2 with
  | MatrixValue.arr elems => elems.length
  | _ => 0

/-! ## Concrete example workflows used by the claim theorems -/

/-- C1 example: a provider job with one string output. -/
def exC1Setup : WorkflowJob :=
  { needs := none, strategy := none
    outputs := some [("list", "placeholder")], steps := none }

/-- C1 example: a consumer whose two matrix dimensions both reference the
same provider output. -/
def exC1Consume : WorkflowJob :=
  { needs := none
    strategy := some
      { matrix := some
          [("a", MatrixValue.str ("fromJSON(needs.setup.outputs.list)")),
           ("b", MatrixValue.str ("fromJSON(needs.setup.outputs.list)"))] }
    outputs := none, steps := none }

/-- C1 example jobs mapping. -/
def exC1Jobs : List (String × WorkflowJob) :=
  [("setup", exC1Setup), ("consume", exC1Consume)]

/-- C1 example workflow file. -/
def exC1Wf : WorkflowFile := ⟨some exC1Jobs⟩

/-- C2 example: two independent ordinary jobs. -/
def exC2Jobs : List (String × WorkflowJob) :=
  [("build", { needs := none, strategy := none, outputs := none, steps := none }),
   ("test", { needs := none, strategy := none, outputs := none, steps := none })]

/-- C2 example workflow file. -/
def exC2Wf : WorkflowFile := ⟨some exC2Jobs⟩

/-- C3 counterexample: a matrix with one explicitly empty dimension. -/
def exC3EmptyDim : WorkflowJob :=
  { needs := none
    strategy := some { matrix := some [("os", MatrixValue.arr [])] }
    outputs := none, steps := none }

/-- C3 witness: a static 2 x 2 matrix. -/
def exC3Static : WorkflowJob :=
  { needs := none
    strategy := some
      { matrix := some
          [("os", MatrixValue.arr ["ubuntu", "windows"]),
           ("node", MatrixValue.arr ["14", "16"])] }
    outputs := none, steps := none }

/-- C4 example: a dynamic dimension whose expression carries an inline
bracketed literal of two elements but no task reference. -/
def exC4Job : WorkflowJob :=
  { needs := none
    strategy := some
      { matrix := some [("items", MatrixValue.str ("fromJSON([1, 2])"))] }
    outputs := none, steps := none }

/-- C5 example: a dynamic dimension referencing a provider job that does
not exist anywhere in the file. -/
def exC5Job : WorkflowJob :=
  { needs := none
    strategy := some
      { matrix := some
          [("x", MatrixValue.str ("fromJSON(needs.ghost.outputs.list)"))] }
    outputs := none, steps := none }

/-- C6 witness: a two-job acyclic workflow. -/
def exC6Jobs : List (String × WorkflowJob) :=
  [("build", { needs := none, strategy := none, outputs := none, steps := none }),
   ("deploy", { needs := some (NeedsValue.list ["build"]), strategy := none
                outputs := none, steps := none })]

/-- C7 witness: a two-job circular workflow. -/
def exC7Jobs : List (String × WorkflowJob) :=
  [("a", { needs := some (NeedsValue.list ["b"]), strategy := none
           outputs := none, steps := none }),
   ("b", { needs := some (NeedsValue.list ["a"]), strategy := none
           outputs := none, steps := none })]

/-- C9 witness-style example: a job depending on an undeclared id. -/
def exC9Jobs : List (String × WorkflowJob) :=
  [("build", { needs := some (NeedsValue.list ["phantom"]), strategy := none
               outputs := none, steps := none })]

/-- C10 example: a workflow file with a jobs mapping. -/
def exC10Wf : WorkflowFile :=
  ⟨some [("build", { needs := none, strategy := none, outputs := none, steps := none })]⟩

/-! ## Lemmas about the map and set primitives -/

theorem alookup_aset_self {α : Type} (m : List (String × α)) (k : String) (v : α) :
    alookup (aset m k v) k = some v := by
  induction m with
  | nil => simp [alookup, aset]
  | cons kv rest ih =>
    obtain ⟨k0, v0⟩ := kv
    by_cases h : k0 = k
    · simp [alookup, aset, h]
    · simp [alookup, aset, h, ih]

theorem alookup_aset_ne {α : Type} (m : List (String × α)) (k k' : String) (v : α)
    (h : k ≠ k') : alookup (aset m k v) k' = alookup m k' := by
  induction m with
  | nil => simp [alookup, aset, h]
  | cons kv rest ih =>
    obtain ⟨k0, v0⟩ := kv
    by_cases h0 : k0 = k
    · subst h0
      simp [alookup, aset, h]
    · simp only [aset, if_neg h0, alookup]
      by_cases h1 : k0 = k'
      · simp [h1]
      · simp [h1, ih]

theorem alookup_mem {α : Type} {m : List (String × α)} {k : String} {v : α}
    (h : alookup m k = some v) : (k, v) ∈ m := by
  induction m with
  | nil => simp [alookup] at h
  | cons kv rest ih =>
    obtain ⟨k0, v0⟩ := kv
    by_cases h0 : k0 = k
    · subst h0
      simp [alookup] at h
      simp [h]
    · simp [alookup, h0] at h
      exact List.mem_cons_of_mem _ (ih h)

theorem alookup_isSome_aset {α : Type} (m : List (String × α)) (k k' : String) (v : α)
    (h : (alookup m k').isSome) : (alookup (aset m k v) k').isSome := by
  by_cases hk : k = k'
  · subst hk
    simp [alookup_aset_self]
  · rwa [alookup_aset_ne m k k' v hk]

theorem mem_setInsert (l : List String) (x y : String) :
    y ∈ setInsert l x ↔ y ∈ l ∨ y = x := by
  unfold setInsert
  by_cases h : x ∈ l
  · simp only [if_pos h]
    constructor
    · exact Or.inl
    · rintro (hy | rfl)
      · exact hy
      · exact h
  · simp [if_neg h]

theorem nodup_setInsert (l : List String) (x : String) (h : l.Nodup) :
    (setInsert l x).Nodup := by
  unfold setInsert
  by_cases hx : x ∈ l
  · simpa [hx]
  · simp only [if_neg hx]
    simpa [List.nodup_append] using ⟨h, hx⟩

theorem mem_setOfList (l : List String) (x : String) : x ∈ setOfList l ↔ x ∈ l := by
  suffices h : ∀ acc : List String, x ∈ l.foldl setInsert acc ↔ x ∈ acc ∨ x ∈ l by
    simpa [setOfList] using h []
  induction l with
  | nil => simp
  | cons a rest ih =>
    intro acc
    rw [List.foldl_cons, ih (setInsert acc a), mem_setInsert]
    constructor
    · rintro (⟨hy | rfl⟩ | hy)
      · exact Or.inl hy
      · exact Or.inr (List.mem_cons_self _ _)
      · exact Or.inr (List.mem_cons_of_mem _ hy)
    · rintro (hy | hy)
      · exact Or.inl (Or.inl hy)
      · rcases List.mem_cons.mp hy with rfl | hy
        · exact Or.inl (Or.inr rfl)
        · exact Or.inr hy

theorem nodup_setOfList (l : List String) : (setOfList l).Nodup := by
  suffices h : ∀ acc : List String, acc.Nodup → (l.foldl setInsert acc).Nodup by
    exact h [] (by simp)
  induction l with
  | nil => intro acc hacc; simpa using hacc
  | cons a rest ih =>
    intro acc hacc
    exact ih (setInsert acc a) (nodup_setInsert acc a hacc)

/-! ## The fuel-bounded level loop computes the level loop -/

theorem length_rest_lt (d : List (String × List String)) (r : List String)
    (h : ¬(r.filter (readyJob d r)).isEmpty = true) :
    (r.filter (fun job => !(r.filter (readyJob d r)).contains job)).length < r.length := by
  have hne : r.filter (readyJob d r) ≠ [] := by
    intro hnil
    apply h
    rw [hnil]
    rfl
  obtain ⟨x, hx⟩ := List.exists_mem_of_ne_nil _ hne
  have hxr : x ∈ r := (List.mem_filter.mp hx).1
  refine List.length_filter_lt_length_iff_exists.mpr ⟨x, hxr, ?_⟩
  simp [hx]

theorem levelLoop_eq_fuel (d : List (String × List String)) :
    ∀ (n : Nat) (r : List String), r.length ≤ n → levelLoop d r = levelLoopFuel d n r := by
  intro n
  induction n with
  | zero =>
    intro r hr
    have hnil : r = [] := List.eq_nil_of_length_eq_zero (Nat.le_zero.mp hr)
    subst hnil
    rw [levelLoop]
    rfl
  | succ n ih =>
    intro r hr
    rw [levelLoop, levelLoopFuel]
    by_cases hre : r.isEmpty
    · simp [hre]
    · simp only [hre, Bool.false_eq_true, if_false]
      by_cases hcl : (r.filter (readyJob d r)).isEmpty
      · simp [hcl]
      · simp only [hcl, dite_false, if_false]
        have hlt := length_rest_lt d r hcl
        rw [ih _ (by omega)]
        simp

theorem levelLoop_eq_fuelLen (d : List (String × List String)) (r : List String) :
    levelLoop d r = levelLoopFuel d r.length r :=
  levelLoop_eq_fuel d r.length r (Nat.le_refl _)

theorem jobLevelsOf_eq_fuel (jobs : List (String × WorkflowJob)) :
    jobLevelsOf jobs =
      levelLoopFuel (buildDependencyMap jobs)
        (setOfList (jobs.map Prod.fst)).length (setOfList (jobs.map Prod.fst)) := by
  rw [jobLevelsOf, levelLoop_eq_fuelLen]

/-! ## Lemmas about the fan-out resolver -/

theorem matrixDimStep_eq (ps : List (String × MatrixProvider)) (a : Nat) (u : Bool)
    (dim : String × MatrixValue) :
    matrixDimStep ps (a, u) dim = (a * dimFactor ps dim, u || dimUsesFromJson ps dim) := by
  obtain ⟨k, v⟩ := dim
  cases v with
  | arr elems => simp [matrixDimStep, dimFactor, dimUsesFromJson]
  | other => simp [matrixDimStep, dimFactor, dimUsesFromJson]
  | str value =>
    simp only [matrixDimStep, dimFactor, dimUsesFromJson]
    by_cases hf : containsSubstr value ("fromJSON") = true
    · simp only [hf, if_true]
      cases hr : (match extractFromJsonReference value with
        | some r => some r
        | none =>
          if containsSubstr value ("needs.") = true then findNeedsRef value.toList
          else none) with
      | some r =>
        obtain ⟨jk, ok⟩ := r
        cases hl : alookup ps (jk ++ "." ++ ok) with
        | some provider => simp [hl]
        | none => simp [hl]
      | none =>
        by_cases hno : containsSubstr value ("needs.") = true ∧
            containsSubstr value ("outputs") = true
        · simp [hno]
        · simp [hno]
    · simp only [Bool.not_eq_true] at hf
      simp [hf]

theorem foldl_matrixDimStep (ps : List (String × MatrixProvider))
    (dims : List (String × MatrixValue)) :
    ∀ (a : Nat) (u : Bool),
      dims.foldl (matrixDimStep ps) (a, u) =
        (a * (dims.map (dimFactor ps)).prod, u || dims.any (dimUsesFromJson ps)) := by
  induction dims with
  | nil => intro a u; simp
  | cons d rest ih =>
    intro a u
    rw [List.foldl_cons, matrixDimStep_eq, ih]
    simp [Nat.mul_assoc, Bool.or_assoc]

theorem needsFold_fixed (ps : List (String × MatrixProvider)) (l : List String) :
    ∀ ms : Nat, ms ≠ 1 →
      l.foldl (fun ms need =>
        if ms = 1 then
          match ps.find? (fun p => p.2.jobKey = need && p.2.size > 1) with
          | some p => p.2.size
          | none => ms
        else ms) ms = ms := by
  induction l with
  | nil => intro ms _; rfl
  | cons need rest ih =>
    intro ms hms
    rw [List.foldl_cons, if_neg hms]
    exact ih ms hms

theorem calculateMatrixSize_of_prod_ne_one (job : WorkflowJob)
    (ps : List (String × MatrixProvider)) (dims : List (String × MatrixValue))
    (hdims : jobMatrix job = some dims)
    (hprod : (dims.map (dimFactor ps)).prod ≠ 1) :
    calculateMatrixSize job ps = (dims.map (dimFactor ps)).prod := by
  unfold calculateMatrixSize
  rw [hdims]
  simp only [foldl_matrixDimStep, Nat.one_mul, Bool.false_or]
  by_cases hcond : (dims.any (dimUsesFromJson ps) && needsTruthy job.needs) = true
  · simp only [hcond, if_true]
    exact needsFold_fixed ps (needsList job.needs) _ hprod
  · simp only [Bool.not_eq_true] at hcond
    simp [hcond]

theorem calculateMatrixSize_all_static (job : WorkflowJob)
    (ps : List (String × MatrixProvider)) (dims : List (String × MatrixValue))
    (hdims : jobMatrix job = some dims)
    (hstat : ∀ d ∈ dims, isStaticDim d = true) :
    calculateMatrixSize job ps = (dims.map staticDimLen).prod := by
  have hmap : dims.map (dimFactor ps) = dims.map staticDimLen := by
    apply List.map_congr_left
    intro d hd
    obtain ⟨k, v⟩ := d
    cases v with
    | arr elems => simp [dimFactor, matrixDimStep, staticDimLen]
    | str s => simpa [isStaticDim] using hstat _ hd
    | other => simpa [isStaticDim] using hstat _ hd
  have hany : dims.any (dimUsesFromJson ps) = false := by
    rw [List.any_eq_false]
    intro d hd
    obtain ⟨k, v⟩ := d
    cases v with
    | arr elems => simp [dimUsesFromJson, matrixDimStep]
    | str s => simpa [isStaticDim] using hstat _ hd
    | other => simpa [isStaticDim] using hstat _ hd
  unfold calculateMatrixSize
  rw [hdims]
  simp only [foldl_matrixDimStep, Nat.one_mul, Bool.false_or, hany, Bool.false_and,
    if_neg (by simp : ¬(false = true)), hmap]

/-! ## Invariants of the level loop (proved over the fuel version) -/

theorem count_filter_split (r : List String) (p : String → Bool) (x : String) :
    (r.filter p).count x + (r.filter (fun j => !(r.filter p).contains j)).count x
      = r.count x := by
  by_cases hx : x ∈ r.filter p
  · have hp : p x = true := (List.mem_filter.mp hx).2
    have h1 : (r.filter p).count x = r.count x := List.count_filter hp
    have h2 : (r.filter (fun j => !(r.filter p).contains j)).count x = 0 := by
      rw [List.count_eq_zero]
      intro hmem
      have hpred := (List.mem_filter.mp hmem).2
      simp [hx] at hpred
    omega
  · have h1 : (r.filter p).count x = 0 := List.count_eq_zero.mpr hx
    have h2 : (r.filter (fun j => !(r.filter p).contains j)).count x = r.count x := by
      apply List.count_filter
      simp [hx]
    omega

theorem fuel_count (d : List (String × List String)) (x : String) :
    ∀ (n : Nat) (r : List String), r.length ≤ n →
      ((levelLoopFuel d n r).1.map (fun l => l.count x)).sum
          + (levelLoopFuel d n r).2.count x = r.count x := by
  intro n
  induction n with
  | zero => intro r _; simp [levelLoopFuel]
  | succ n ih =>
    intro r hr
    rw [levelLoopFuel]
    by_cases hre : r.isEmpty
    · have : r = [] := List.isEmpty_iff.mp hre
      subst this
      simp [hre]
    · simp only [hre, Bool.false_eq_true, if_false]
      by_cases hcl : (r.filter (readyJob d r)).isEmpty
      · simp [hcl]
      · simp only [hcl, Bool.false_eq_true, if_false]
        have hlt := length_rest_lt d r hcl
        have hih := ih (r.filter (fun job => !(r.filter (readyJob d r)).contains job))
          (by omega)
        simp only [List.map_cons, List.sum_cons]
        have hsplit := count_filter_split r (readyJob d r) x
        omega

theorem exists_min_rank (f : String → Nat) :
    ∀ (l : List String), l ≠ [] → ∃ x ∈ l, ∀ y ∈ l, f x ≤ f y := by
  intro l
  induction l with
  | nil => intro h; exact absurd rfl h
  | cons a rest ih =>
    intro _
    by_cases hr : rest = []
    · subst hr
      exact ⟨a, List.mem_cons_self _ _, by intro y hy; simp at hy; subst hy; exact le_refl _⟩
    · obtain ⟨m, hm, hmin⟩ := ih hr
      by_cases hcmp : f a ≤ f m
      · refine ⟨a, List.mem_cons_self _ _, ?_⟩
        intro y hy
        rcases List.mem_cons.mp hy with rfl | hy
        · exact le_refl _
        · exact le_trans hcmp (hmin y hy)
      · refine ⟨m, List.mem_cons_of_mem _ hm, ?_⟩
        intro y hy
        rcases List.mem_cons.mp hy with rfl | hy
        · omega
        · exact hmin y hy

theorem fuel_leftover_nil (d : List (String × List String)) (rank : String → Nat) :
    ∀ (n : Nat) (r : List String), r.length ≤ n →
      (∀ j ∈ r, ∃ deps, alookup d j = some deps ∧
        ∀ dep ∈ deps, dep ∈ r → rank dep < rank j) →
      (levelLoopFuel d n r).2 = [] := by
  intro n
  induction n with
  | zero =>
    intro r hr _
    have : r = [] := by
      cases r with
      | nil => rfl
      | cons a l => simp at hr
    subst this
    rfl
  | succ n ih =>
    intro r hr hdeps
    rw [levelLoopFuel]
    by_cases hre : r.isEmpty
    · simp [hre]
    · simp only [hre, Bool.false_eq_true, if_false]
      have hrne : r ≠ [] := by
        intro h
        subst h
        simp at hre
      obtain ⟨m, hm, hmin⟩ := exists_min_rank rank r hrne
      have hready : readyJob d r m = true := by
        obtain ⟨deps, hlook, hrank⟩ := hdeps m hm
        unfold readyJob
        rw [hlook]
        rw [List.all_eq_true]
        intro dep hdep
        by_cases hdr : dep ∈ r
        · have h1 := hrank dep hdep hdr
          have h2 := hmin dep hdr
          omega
        · simp [hdr]
      have hmem : m ∈ r.filter (readyJob d r) := List.mem_filter.mpr ⟨hm, hready⟩
      have hcl : (r.filter (readyJob d r)).isEmpty = false := by
        cases h : (r.filter (readyJob d r)) with
        | nil => rw [h] at hmem; simp at hmem
        | cons a l => rfl
      simp only [hcl, Bool.false_eq_true, if_false]
      have hlt := length_rest_lt d r (by rw [hcl]; simp)
      apply ih _ (by omega)
      intro j hj
      have hjr : j ∈ r := (List.mem_filter.mp hj).1
      obtain ⟨deps, hlook, hrank⟩ := hdeps j hjr
      exact ⟨deps, hlook, fun dep hdep hdr =>
        hrank dep hdep (List.mem_filter.mp hdr).1⟩

theorem fuel_levels_nonempty (d : List (String × List String)) :
    ∀ (n : Nat) (r : List String) (lvl : List String),
      lvl ∈ (levelLoopFuel d n r).1 → lvl ≠ [] := by
  intro n
  induction n with
  | zero => intro r lvl h; simp [levelLoopFuel] at h
  | succ n ih =>
    intro r lvl h
    rw [levelLoopFuel] at h
    by_cases hre : r.isEmpty
    · simp [hre] at h
    · simp only [hre, Bool.false_eq_true, if_false] at h
      by_cases hcl : (r.filter (readyJob d r)).isEmpty
      · simp [hcl] at h
      · simp only [hcl, Bool.false_eq_true, if_false] at h
        rcases List.mem_cons.mp h with rfl | h
        · intro hnil
          rw [hnil] at hcl
          exact hcl rfl
        · exact ih _ lvl h

theorem fuel_dep_ordering (d : List (String × List String)) :
    ∀ (n : Nat) (r : List String), r.length ≤ n →
      ∀ (i : Nat) (x : String) (deps : List String) (dep : String),
        x ∈ (levelLoopFuel d n r).1.getD i [] →
        alookup d x = some deps → dep ∈ deps → dep ∈ r →
        ∃ j, j < i ∧ dep ∈ (levelLoopFuel d n r).1.getD j [] := by
  intro n
  induction n with
  | zero => intro r _ i x deps dep hx _ _ _; simp [levelLoopFuel] at hx
  | succ n ih =>
    intro r hr i x deps dep hx hlook hdep hdepr
    rw [levelLoopFuel] at hx ⊢
    by_cases hre : r.isEmpty
    · simp [hre] at hx
    · simp only [hre, Bool.false_eq_true, if_false] at hx ⊢
      by_cases hcl : (r.filter (readyJob d r)).isEmpty
      · simp [hcl] at hx
      · simp only [hcl, Bool.false_eq_true, if_false] at hx ⊢
        cases i with
        | zero =>
          rw [List.getD_cons_zero] at hx
          have hready := (List.mem_filter.mp hx).2
          unfold readyJob at hready
          rw [hlook, List.all_eq_true] at hready
          have := hready dep hdep
          simp [hdepr] at this
        | succ i =>
          rw [List.getD_cons_succ] at hx
          by_cases hdcl : dep ∈ r.filter (readyJob d r)
          · exact ⟨0, Nat.succ_pos i, by rw [List.getD_cons_zero]; exact hdcl⟩
          · have hlt := length_rest_lt d r hcl
            have hdrest : dep ∈ r.filter (fun job => !(r.filter (readyJob d r)).contains job) := by
              refine List.mem_filter.mpr ⟨hdepr, ?_⟩
              simp [hdcl]
            obtain ⟨j, hj, hmem⟩ := ih _ (by omega) i x deps dep hx hlook hdep hdrest
            exact ⟨j + 1, by omega, by rw [List.getD_cons_succ]; exact hmem⟩

theorem fuel_length_le (d : List (String × List String)) :
    ∀ (n : Nat) (r : List String), r.length ≤ n →
      (levelLoopFuel d n r).1.length ≤ r.length := by
  intro n
  induction n with
  | zero => intro r _; simp [levelLoopFuel]
  | succ n ih =>
    intro r hr
    rw [levelLoopFuel]
    by_cases hre : r.isEmpty
    · simp [hre]
    · simp only [hre, Bool.false_eq_true, if_false]
      by_cases hcl : (r.filter (readyJob d r)).isEmpty
      · simp [hcl]
      · simp only [hcl, Bool.false_eq_true, if_false]
        have hlt := length_rest_lt d r hcl
        have hih := ih (r.filter (fun job => !(r.filter (readyJob d r)).contains job))
          (by omega)
        simp only [List.length_cons]
        omega

theorem fuel_cycle_stuck (d : List (String × List String)) (c : List String)
    (hne : c ≠ [])
    (hdep : ∀ x ∈ c, ∀ deps, alookup d x = some deps → ∃ dep ∈ deps, dep ∈ c) :
    ∀ (n : Nat) (r : List String), (∀ x ∈ c, x ∈ r) →
      ∀ x ∈ c, x ∈ (levelLoopFuel d n r).2 := by
  intro n
  induction n with
  | zero => intro r hsub x hx; exact hsub x hx
  | succ n ih =>
    intro r hsub x hx
    rw [levelLoopFuel]
    by_cases hre : r.isEmpty
    · exfalso
      obtain ⟨y, hy⟩ := List.exists_mem_of_ne_nil c hne
      have := hsub y hy
      rw [List.isEmpty_iff.mp hre] at this
      simp at this
    · simp only [hre, Bool.false_eq_true, if_false]
      have hnotready : ∀ y ∈ c, readyJob d r y = false := by
        intro y hy
        unfold readyJob
        cases hlook : alookup d y with
        | none => rfl
        | some deps =>
          obtain ⟨dep, hdepmem, hdepc⟩ := hdep y hy deps hlook
          rw [Bool.eq_false_iff]
          intro hall
          rw [List.all_eq_true] at hall
          have := hall dep hdepmem
          simp [hsub dep hdepc] at this
      by_cases hcl : (r.filter (readyJob d r)).isEmpty
      · simp only [hcl, if_true]
        exact hsub x hx
      · simp only [hcl, Bool.false_eq_true, if_false]
        apply ih
        · intro y hy
          refine List.mem_filter.mpr ⟨hsub y hy, ?_⟩
          have : y ∉ r.filter (readyJob d r) := by
            intro hmem
            have h1 := (List.mem_filter.mp hmem).2
            rw [hnotready y hy] at h1
            cases h1
          simp [this]
        · exact hx

/-! ## Unknown dependencies never block layering (C9 machinery) -/

theorem alookup_restrictDeps (d : List (String × List String)) (S : List String)
    (k : String) :
    alookup (restrictDeps d S) k =
      (alookup d k).map (fun deps => deps.filter (fun dep => S.contains dep)) := by
  induction d with
  | nil => rfl
  | cons kd rest ih =>
    obtain ⟨k0, v0⟩ := kd
    by_cases h : k0 = k
    · simp [restrictDeps, alookup, h]
    · simp only [restrictDeps, List.map_cons, alookup, h, if_false]
      simpa [restrictDeps] using ih

theorem readyJob_restrict (d : List (String × List String)) (S : List String)
    (r : List String) (hsub : ∀ x ∈ r, x ∈ S) (j : String) :
    readyJob (restrictDeps d S) r j = readyJob d r j := by
  unfold readyJob
  rw [alookup_restrictDeps]
  cases alookup d j with
  | none => rfl
  | some deps =>
    simp only [Option.map_some']
    rw [Bool.eq_iff_iff, List.all_eq_true, List.all_eq_true]
    constructor
    · intro hall dep hdep
      by_cases hS : dep ∈ S
      · exact hall dep (List.mem_filter.mpr ⟨hdep, by simp [hS]⟩)
      · have : dep ∉ r := fun hr => hS (hsub dep hr)
        simp [this]
    · intro hall dep hdep
      exact hall dep (List.mem_filter.mp hdep).1

theorem fuel_restrict (d : List (String × List String)) (S : List String) :
    ∀ (n : Nat) (r : List String), (∀ x ∈ r, x ∈ S) →
      levelLoopFuel (restrictDeps d S) n r = levelLoopFuel d n r := by
  intro n
  induction n with
  | zero => intro r _; rfl
  | succ n ih =>
    intro r hsub
    rw [levelLoopFuel, levelLoopFuel]
    have hfilter : r.filter (readyJob (restrictDeps d S) r) = r.filter (readyJob d r) :=
      List.filter_congr (fun x _ => readyJob_restrict d S r hsub x)
    rw [hfilter]
    by_cases hre : r.isEmpty
    · simp [hre]
    · simp only [hre, Bool.false_eq_true, if_false]
      by_cases hcl : (r.filter (readyJob d r)).isEmpty
      · simp [hcl]
      · simp only [hcl, Bool.false_eq_true, if_false]
        rw [ih]
        intro x hx
        exact hsub x (List.mem_filter.mp hx).1

/-! ## Every declared job key has an entry in the dependency map -/

theorem alookup_foldl_aset_init (jobsl : List (String × WorkflowJob)) :
    ∀ (m : List (String × List String)) (k : String),
      (k ∈ jobsl.map Prod.fst ∨ (alookup m k).isSome) →
      (alookup (jobsl.foldl (fun m kv => aset m kv.1 []) m) k).isSome := by
  induction jobsl with
  | nil =>
    intro m k h
    rcases h with h | h
    · simp at h
    · exact h
  | cons kv rest ih =>
    intro m k h
    rw [List.foldl_cons]
    apply ih
    rcases h with h | h
    · rw [List.map_cons, List.mem_cons] at h
      rcases h with rfl | h
      · right
        rw [alookup_aset_self]
        rfl
      · exact Or.inl h
    · exact Or.inr (alookup_isSome_aset m kv.1 k [] h)

theorem alookup_needsFold_isSome (jk : String) (needs : List String) :
    ∀ (m : List (String × List String)) (k : String), (alookup m k).isSome →
      (alookup (needs.foldl (fun m need =>
        match alookup m jk with
        | some deps => aset m jk (setInsert deps need)
        | none => m) m) k).isSome := by
  induction needs with
  | nil => intro m k h; exact h
  | cons need rest ih =>
    intro m k h
    rw [List.foldl_cons]
    apply ih
    cases hl : alookup m jk with
    | none => simp only [hl]; exact h
    | some deps =>
      simp only [hl]
      exact alookup_isSome_aset m jk k (setInsert deps need) h

theorem buildDependencyMap_total (jobs : List (String × WorkflowJob)) (k : String)
    (hk : k ∈ jobs.map Prod.fst) :
    ∃ deps, alookup (buildDependencyMap jobs) k = some deps := by
  rw [← Option.isSome_iff_exists]
  unfold buildDependencyMap
  have hbase := alookup_foldl_aset_init jobs [] k (Or.inl hk)
  revert hbase
  generalize jobs.foldl (fun m kv => aset m kv.1 []) [] = base
  suffices h : ∀ (jl : List (String × WorkflowJob)) (m : List (String × List String)),
      (alookup m k).isSome →
      (alookup (jl.foldl (fun m kv =>
        if needsTruthy kv.2.needs then
          (needsList kv.2.needs).foldl (fun m need =>
            match alookup m kv.1 with
            | some deps => aset m kv.1 (setInsert deps need)
            | none => m) m
        else m) m) k).isSome by
    intro hbase
    exact h jobs base hbase
  intro jl
  induction jl with
  | nil => intro m h; exact h
  | cons kv rest ih =>
    intro m h
    rw [List.foldl_cons]
    apply ih
    by_cases hn : needsTruthy kv.2.needs
    · simp only [hn, if_true]
      exact alookup_needsFold_isSome kv.1 (needsList kv.2.needs) m k h
    · simp only [hn, Bool.false_eq_true, if_false]
      exact h

/-- `setOfList` never lengthens a list. -/
theorem setOfList_length_le (l : List String) : (setOfList l).length ≤ l.length := by
  suffices h : ∀ acc : List String, (l.foldl setInsert acc).length ≤ acc.length + l.length by
    simpa using h []
  induction l with
  | nil => intro acc; simp
  | cons a rest ih =>
    intro acc
    rw [List.foldl_cons]
    have h1 : (setInsert acc a).length ≤ acc.length + 1 := by
      unfold setInsert
      by_cases hmem : a ∈ acc
      · simp [hmem]
      · simp [hmem]
    have h2 := ih (setInsert acc a)
    simp only [List.length_cons]
    omega

/-! ## The shape of `analyzeWorkflow` on a present jobs mapping -/

theorem analyzeWorkflow_fold (p : String) (jobs : List (String × WorkflowJob))
    (mp : List (String × MatrixProvider)) :
    ∀ (lvls : List (List String)) (acc : List ConcurrencyDetail × Nat),
      (∀ lvl ∈ lvls, lvl.isEmpty = false) →
      lvls.foldl (fun (acc : List ConcurrencyDetail × Nat) level =>
        if level.isEmpty then acc
        else
          (acc.1 ++ [{ file := p
                       jobs := level
                       count := calculateLevelConcurrency level jobs mp
                       counted := true }],
           Nat.max acc.2 (calculateLevelConcurrency level jobs mp))) acc
        = (acc.1 ++ lvls.map (fun level =>
             { file := p
               jobs := level
               count := calculateLevelConcurrency level jobs mp
               counted := true }),
           (lvls.map (fun level => calculateLevelConcurrency level jobs mp)).foldl
             Nat.max acc.2) := by
  intro lvls
  induction lvls with
  | nil => intro acc _; simp
  | cons lvl rest ih =>
    intro acc hne
    rw [List.foldl_cons]
    have h1 : lvl.isEmpty = false := hne lvl (List.mem_cons_self _ _)
    simp only [h1, Bool.false_eq_true, if_false]
    rw [ih _ (fun l hl => hne l (List.mem_cons_of_mem _ hl))]
    simp

theorem levelsOf_nonempty (jobs : List (String × WorkflowJob)) :
    ∀ lvl ∈ (jobLevelsOf jobs).1, lvl.isEmpty = false := by
  intro lvl h
  rw [jobLevelsOf_eq_fuel] at h
  have hne := fuel_levels_nonempty (buildDependencyMap jobs) _ _ lvl h
  cases hl : lvl with
  | nil => exact absurd hl hne
  | cons a l => rfl

theorem analyzeWorkflow_some (jobs : List (String × WorkflowJob)) (p : String)
    (maxC : Nat) :
    analyzeWorkflow ⟨some jobs⟩ p maxC =
      { file := p
        concurrencyCount := ((jobLevelsOf jobs).1.map (fun level =>
          calculateLevelConcurrency level jobs (getMatrixProviders ⟨some jobs⟩))).foldl
            Nat.max 0
        passed := decide ((((jobLevelsOf jobs).1.map (fun level =>
          calculateLevelConcurrency level jobs (getMatrixProviders ⟨some jobs⟩))).foldl
            Nat.max 0) ≤ maxC)
        details := (jobLevelsOf jobs).1.map (fun level =>
          { file := p
            jobs := level
            count := calculateLevelConcurrency level jobs (getMatrixProviders ⟨some jobs⟩)
            counted := true }) } := by
  simp only [analyzeWorkflow]
  rw [analyzeWorkflow_fold p jobs (getMatrixProviders ⟨some jobs⟩) (jobLevelsOf jobs).1
    ([], 0) (levelsOf_nonempty jobs)]
  simp

/-! ## Helper lemma for C2 -/

theorem analyzeWorkflow_passed_iff (wf : WorkflowFile) (p : String) (maxC : Nat) :
    (analyzeWorkflow wf p maxC).passed = true ↔
      (analyzeWorkflow wf p maxC).concurrencyCount ≤ maxC := by
  obtain ⟨jobs⟩ := wf
  cases jobs with
  | none => simp [analyzeWorkflow]
  | some jl => simp [analyzeWorkflow]

/-! ## Claim theorems -/

/-- Claim C1 (code bug): the recorded width of a level is NOT always the
sum of the member tasks' multipliers.  In `exC1Wf` the single level is
`[setup, consume]` with multipliers 1 and 9, so the claimed width is 10;
but `calculateLevelConcurrency` adds the consumer once per
provider-referencing matrix dimension (the `processedJobs` guard of
lines 460-474 is consulted only in the second loop) and reports 19,
which then becomes the file's `concurrencyCount`. -/
theorem claim_C1_eval :
    (jobLevelsOf exC1Jobs).1 = [["setup", "consume"]] ∧
    calculateMatrixSize exC1Setup (getMatrixProviders exC1Wf) = 1 ∧
    calculateMatrixSize exC1Consume (getMatrixProviders exC1Wf) = 9 ∧
    calculateLevelConcurrency ["setup", "consume"] exC1Jobs (getMatrixProviders exC1Wf) = 19 ∧
    (analyzeWorkflow exC1Wf ("wf.yml") 10).concurrencyCount = 19 := by
  have hlv : jobLevelsOf exC1Jobs = ([["setup", "consume"]], []) := by
    rw [jobLevelsOf_eq_fuel]
    decide
  refine ⟨by rw [hlv], by decide, by decide, by decide, ?_⟩
  simp only [analyzeWorkflow, exC1Wf, hlv]
  decide

/-- Claim C2: the per-file verdict passes iff the reported concurrency is
at most the ceiling (equality passes, one above fails), and a file with
no tasks (absent or empty jobs mapping) reports concurrency 0 and
passes. -/
theorem claim_C2 (wf : WorkflowFile) (p : String) (maxC : Nat) :
    ((analyzeWorkflow wf p maxC).passed = true ↔
      (analyzeWorkflow wf p maxC).concurrencyCount ≤ maxC) ∧
    ((analyzeWorkflow wf p maxC).concurrencyCount = maxC →
      (analyzeWorkflow wf p maxC).passed = true) ∧
    ((analyzeWorkflow wf p maxC).concurrencyCount = maxC + 1 →
      (analyzeWorkflow wf p maxC).passed = false) ∧
    (wf.jobs = none ∨ wf.jobs = some [] →
      (analyzeWorkflow wf p maxC).concurrencyCount = 0 ∧
      (analyzeWorkflow wf p maxC).passed = true) := by
  have hiff := analyzeWorkflow_passed_iff wf p maxC
  refine ⟨hiff, ?_, ?_, ?_⟩
  · intro h
    exact hiff.mpr (le_of_eq h)
  · intro h
    rw [Bool.eq_false_iff]
    intro hpass
    have := hiff.mp hpass
    omega
  · intro h
    obtain ⟨jobs⟩ := wf
    rcases h with h | h
    · simp only at h
      subst h
      exact ⟨rfl, rfl⟩
    · simp only at h
      subst h
      have h0 : jobLevelsOf ([] : List (String × WorkflowJob)) = ([], []) := by
        rw [jobLevelsOf_eq_fuel]
        decide
      constructor
      · simp only [analyzeWorkflow, h0]
        rfl
      · simp only [analyzeWorkflow, h0]
        simp

/-- Witness for C2 at concrete inputs: a file with an absent jobs mapping
reports concurrency 0 and passes. -/
theorem claim_C2_witness :
    (analyzeWorkflow ⟨none⟩ ("empty.yml") 2).concurrencyCount = 0 ∧
    (analyzeWorkflow ⟨none⟩ ("empty.yml") 2).passed = true :=
  (claim_C2 ⟨none⟩ ("empty.yml") 2).2.2.2 (Or.inl rfl)

/-- Counterexample to claim C3 as stated: a task whose matrix has one
explicitly empty dimension has multiplier 0, not a multiplier `≥ 1`. -/
theorem claim_C3_counterexample : ¬ (1 ≤ calculateMatrixSize exC3EmptyDim []) := by
  decide

/-- Claim C3 (amended): a task with no matrix has multiplier 1, and a task
whose matrix dimensions are all explicit sequences has multiplier equal
to the product of the sequence lengths — which is 0, not `≥ 1`, when
some dimension is explicitly empty; the multiplier is `≥ 1` whenever
every explicit dimension is nonempty. -/
theorem claim_C3_amended (ps : List (String × MatrixProvider)) (job : WorkflowJob) :
    (jobMatrix job = none → calculateMatrixSize job ps = 1) ∧
    (∀ dims, jobMatrix job = some dims → (∀ d ∈ dims, isStaticDim d = true) →
      calculateMatrixSize job ps = (dims.map staticDimLen).prod ∧
      ((∀ d ∈ dims, staticDimLen d ≠ 0) → 1 ≤ calculateMatrixSize job ps)) := by
  constructor
  · intro h
    unfold calculateMatrixSize
    rw [h]
  · intro dims hdims hstat
    have hmain := calculateMatrixSize_all_static job ps dims hdims hstat
    refine ⟨hmain, ?_⟩
    intro hnz
    rw [hmain]
    have hne : (dims.map staticDimLen).prod ≠ 0 := by
      intro h0
      rw [List.prod_eq_zero_iff] at h0
      obtain ⟨d, hd, hdl⟩ := List.mem_map.mp h0
      exact hnz d hd hdl
    omega

/-- Witness for C3 (amended): a 2 x 2 static matrix has multiplier 4, and
a matrix-less task has multiplier 1. -/
theorem claim_C3_amended_witness :
    calculateMatrixSize exC3Static [] = 4 ∧
    1 ≤ calculateMatrixSize exC3Static [] ∧
    calculateMatrixSize { needs := none, strategy := none, outputs := none, steps := none } [] = 1 := by
  obtain ⟨hm, hge⟩ := (claim_C3_amended [] exC3Static).2 _ rfl (by decide)
  exact ⟨by rw [hm]; decide, hge (by decide), (claim_C3_amended [] _).1 rfl⟩

/-- Counterexample to claim C4 as stated: for a dynamic dimension whose
expression carries an inline bracketed literal of 2 elements (and no
task reference), the resolver does not size the dimension by that count:
the task's multiplier is 1, not 2. -/
theorem claim_C4_counterexample :
    extractArraySize ("fromJSON([1, 2])") = 2 ∧
    calculateMatrixSize exC4Job [] = 1 := by
  exact ⟨by decide, by decide⟩

/-- Claim C4 (amended): the inline-literal count is never applied to a
dynamic dimension expression (`extractArraySize` is only used on
provider output expressions); a `fromJSON` dimension with no parsable
`needs.<task>.outputs.<key>` reference and no `needs.` substring is
skipped, contributing factor 1, whatever bracketed literal it contains;
a single-dimension task of this shape with no `needs` has multiplier 1. -/
theorem claim_C4_amended (ps : List (String × MatrixProvider)) (k v : String)
    (a : Nat) (u : Bool)
    (hf : containsSubstr v ("fromJSON") = true)
    (hr : extractFromJsonReference v = none)
    (hn : containsSubstr v ("needs.") = false) :
    matrixDimStep ps (a, u) (k, MatrixValue.str v) = (a, true) ∧
    (∀ job : WorkflowJob, jobMatrix job = some [(k, MatrixValue.str v)] →
      job.needs = none → calculateMatrixSize job ps = 1) := by
  have hstep : ∀ (a : Nat) (u : Bool),
      matrixDimStep ps (a, u) (k, MatrixValue.str v) = (a, true) := by
    intro a u
    simp [matrixDimStep, hf, hr, hn]
  refine ⟨hstep a u, ?_⟩
  intro job hdims hneeds
  unfold calculateMatrixSize
  rw [hdims]
  simp only [List.foldl_cons, List.foldl_nil, hstep]
  simp [needsTruthy, hneeds]

/-- Witness for C4 (amended) at the concrete inline-literal expression. -/
theorem claim_C4_amended_witness : calculateMatrixSize exC4Job [] = 1 := by
  have h := claim_C4_amended [] ("items") ("fromJSON([1, 2])") 1 false
    (by decide) (by decide) (by decide)
  exact h.2 exC4Job rfl rfl

/-- Claim C5: a dynamic dimension whose size no heuristic can determine —
in particular one whose parsed reference names a provider absent from
the provider map (e.g. the provider task does not exist in the file), or
one whose reference cannot be parsed at all but still mentions
`fromJSON`, `needs.` and `outputs` — contributes exactly the default
factor 3 to the task's multiplier, the other dimensions being
unaffected. -/
theorem claim_C5 (ps : List (String × MatrixProvider)) (job : WorkflowJob)
    (pre post : List (String × MatrixValue)) (k v : String)
    (hdims : jobMatrix job = some (pre ++ (k, MatrixValue.str v) :: post))
    (hf : containsSubstr v ("fromJSON") = true) :
    (∀ jk ok, extractFromJsonReference v = some (jk, ok) →
      alookup ps (jk ++ "." ++ ok) = none →
      dimFactor ps (k, MatrixValue.str v) = 3 ∧
      calculateMatrixSize job ps = 3 * ((pre ++ post).map (dimFactor ps)).prod) ∧
    (extractFromJsonReference v = none → containsSubstr v ("needs.") = true →
      containsSubstr v ("outputs") = true →
      dimFactor ps (k, MatrixValue.str v) = 3 ∧
      calculateMatrixSize job ps = 3 * ((pre ++ post).map (dimFactor ps)).prod) := by
  have key : dimFactor ps (k, MatrixValue.str v) = 3 →
      calculateMatrixSize job ps = 3 * ((pre ++ post).map (dimFactor ps)).prod := by
    intro h3
    have hprod : ((pre ++ (k, MatrixValue.str v) :: post).map (dimFactor ps)).prod
        = 3 * ((pre ++ post).map (dimFactor ps)).prod := by
      simp only [List.map_append, List.prod_append, List.map_cons, List.prod_cons, h3]
      ring
    rw [calculateMatrixSize_of_prod_ne_one job ps _ hdims (by rw [hprod]; omega)]
    exact hprod
  constructor
  · intro jk ok hsome hnone
    have h3 : dimFactor ps (k, MatrixValue.str v) = 3 := by
      simp [dimFactor, matrixDimStep, hf, hsome, hnone]
    exact ⟨h3, key h3⟩
  · intro hnone hneeds houts
    have hfind : findNeedsRef v.toList = none := by
      have h' : (match findPattern1 v.toList with
        | some r => some r
        | none =>
          match findPattern2 v.toList with
          | some r => some r
          | none => findNeedsRef v.toList) = (none : Option (String × String)) := hnone
      cases hp1 : findPattern1 v.toList with
      | some r => rw [hp1] at h'; simp at h'
      | none =>
        rw [hp1] at h'
        cases hp2 : findPattern2 v.toList with
        | some r => rw [hp2] at h'; simp at h'
        | none => rwa [hp2] at h'
    have h3 : dimFactor ps (k, MatrixValue.str v) = 3 := by
      simp only [dimFactor, matrixDimStep, hf, if_true, hnone, hneeds, hfind, houts]
      simp
    exact ⟨h3, key h3⟩

/-- Witness for C5: a dimension referencing the nonexistent provider task
`ghost` makes the task's multiplier exactly 3. -/
theorem claim_C5_witness : calculateMatrixSize exC5Job [] = 3 := by
  have h := (claim_C5 [] exC5Job [] [] ("x") ("fromJSON(needs.ghost.outputs.list)")
    rfl (by decide)).1 ("ghost") ("list") (by decide) rfl
  simpa using h.2

/-- Counterexample to claim C8 as stated: with an invalid ceiling (`"0"`)
and `fail-on-error` disabled, the run is fatal but the process does NOT
terminate with a failure exit status (`process.exit(1)` is guarded by
`FAIL_ON_ERROR` in the top-level catch, lines 764-766). -/
theorem claim_C8_counterexample :
    (runValidation (some ("0")) false []).fatalError = true ∧
    (runValidation (some ("0")) false []).exitFailure = false := by
  decide

/-- Claim C8 (amended): a non-numeric or non-positive ceiling makes the
run fail fatally before any file is processed (no results are
collected, the `validation_passed` output is false), and the process
terminates with a failure exit status exactly when `fail-on-error` is
enabled. -/
theorem claim_C8_amended (inp : Option String) (foe : Bool)
    (files : List (String × WorkflowFile)) (h : invalidCeiling inp = true) :
    (runValidation inp foe files).fatalError = true ∧
    (runValidation inp foe files).workflowResults = [] ∧
    (runValidation inp foe files).exitFailure = foe ∧
    (runValidation inp foe files).validationPassedOutput = false := by
  unfold invalidCeiling at h
  unfold runValidation
  cases hp : parseIntJS (envOr inp ("10")) with
  | none => exact ⟨rfl, rfl, rfl, rfl⟩
  | some m =>
    rw [hp] at h
    have hm : m ≤ 0 := by simpa using h
    simp [hm]

/-- Witness for C8 (amended) at a non-numeric ceiling with `fail-on-error`
enabled. -/
theorem claim_C8_amended_witness :
    (runValidation (some ("abc")) true []).fatalError = true ∧
    (runValidation (some ("abc")) true []).workflowResults = [] ∧
    (runValidation (some ("abc")) true []).exitFailure = true ∧
    (runValidation (some ("abc")) true []).validationPassedOutput = false :=
  claim_C8_amended (some ("abc")) true [] (by decide)

/-- Claim C10: a parsed file with no top-level jobs mapping yields a
passing result with concurrency 0 that is NOT appended to the run-wide
results list, while every file with a jobs mapping has its result
appended. -/
theorem claim_C10 (maxC : Nat) (p : String) (wf : WorkflowFile)
    (acc : List WorkflowValidationResult) :
    (wf.jobs = none →
      processWorkflowFile maxC acc (p, wf) = acc ∧
      analyzeWorkflow wf p maxC =
        { file := p, concurrencyCount := 0, passed := true, details := [] }) ∧
    (wf.jobs ≠ none →
      processWorkflowFile maxC acc (p, wf) = acc ++ [analyzeWorkflow wf p maxC]) := by
  obtain ⟨jobs⟩ := wf
  cases jobs with
  | none => exact ⟨fun _ => ⟨rfl, rfl⟩, fun h => absurd rfl h⟩
  | some jl =>
    refine ⟨fun h => by simp at h, fun _ => rfl⟩

/-- Witness for C10: a jobs-less file leaves the results list unchanged,
a file with a jobs mapping appends its result. -/
theorem claim_C10_witness :
    processWorkflowFile 10 [] (("a.yml"), (⟨none⟩ : WorkflowFile)) = [] ∧
    processWorkflowFile 10 [] (("b.yml"), exC10Wf) = [analyzeWorkflow exC10Wf ("b.yml") 10] := by
  constructor
  · exact ((claim_C10 10 ("a.yml") ⟨none⟩ []).1 rfl).1
  · have h := (claim_C10 10 ("b.yml") exC10Wf []).2 (by simp [exC10Wf])
    simpa using h

/-- Claim C6: when the declared dependency relation is acyclic (witnessed
by a rank function decreasing along declared dependencies), the level
partitioner leaves no job unassigned, places every job in exactly one
level, places every job strictly after each of its declared
dependencies, and produces at most node-count levels (one loop
iteration per level). -/
theorem claim_C6 (jobs : List (String × WorkflowJob)) (rank : String → Nat)
    (hrank : ∀ kd ∈ buildDependencyMap jobs, ∀ dep ∈ kd.2,
      dep ∈ jobs.map Prod.fst → rank dep < rank kd.1) :
    (jobLevelsOf jobs).2 = [] ∧
    (∀ x ∈ setOfList (jobs.map Prod.fst),
      ((jobLevelsOf jobs).1.map (fun lvl => lvl.count x)).sum = 1) ∧
    (∀ (i : Nat) (x : String) (deps : List String) (dep : String),
      x ∈ (jobLevelsOf jobs).1.getD i [] →
      alookup (buildDependencyMap jobs) x = some deps →
      dep ∈ deps → dep ∈ jobs.map Prod.fst →
      ∃ j, j < i ∧ dep ∈ (jobLevelsOf jobs).1.getD j []) ∧
    (jobLevelsOf jobs).1.length ≤ (jobs.map Prod.fst).length := by
  have hdeps : ∀ j ∈ setOfList (jobs.map Prod.fst),
      ∃ deps, alookup (buildDependencyMap jobs) j = some deps ∧
        ∀ dep ∈ deps, dep ∈ setOfList (jobs.map Prod.fst) → rank dep < rank j := by
    intro j hj
    obtain ⟨deps, hdj⟩ := buildDependencyMap_total jobs j ((mem_setOfList _ j).mp hj)
    refine ⟨deps, hdj, ?_⟩
    intro dep hdep hdepr
    exact hrank (j, deps) (alookup_mem hdj) dep hdep ((mem_setOfList _ dep).mp hdepr)
  have hleft : (jobLevelsOf jobs).2 = [] := by
    rw [jobLevelsOf_eq_fuel]
    exact fuel_leftover_nil (buildDependencyMap jobs) rank _ _ (le_refl _) hdeps
  refine ⟨hleft, ?_, ?_, ?_⟩
  · intro x hx
    have hcount := fuel_count (buildDependencyMap jobs) x
      (setOfList (jobs.map Prod.fst)).length (setOfList (jobs.map Prod.fst)) (le_refl _)
    rw [← jobLevelsOf_eq_fuel, hleft] at hcount
    have hnodup := nodup_setOfList (jobs.map Prod.fst)
    have hle := List.nodup_iff_count_le_one.mp hnodup x
    have hpos : 0 < (setOfList (jobs.map Prod.fst)).count x :=
      List.count_pos_iff.mpr hx
    simp only [List.count_nil] at hcount
    omega
  · intro i x deps dep hx hlook hdep hdepk
    have hord := fuel_dep_ordering (buildDependencyMap jobs)
      (setOfList (jobs.map Prod.fst)).length (setOfList (jobs.map Prod.fst))
      (le_refl _) i x deps dep (by rw [← jobLevelsOf_eq_fuel]; exact hx) hlook hdep
      ((mem_setOfList _ dep).mpr hdepk)
    rw [← jobLevelsOf_eq_fuel] at hord
    exact hord
  · have h1 := fuel_length_le (buildDependencyMap jobs)
      (setOfList (jobs.map Prod.fst)).length (setOfList (jobs.map Prod.fst)) (le_refl _)
    rw [← jobLevelsOf_eq_fuel] at h1
    exact le_trans h1 (setOfList_length_le _)

/-- Witness for C6 on a concrete acyclic two-job workflow. -/
theorem claim_C6_witness :
    (jobLevelsOf exC6Jobs).2 = [] ∧
    ((jobLevelsOf exC6Jobs).1.map (fun lvl => lvl.count ("build"))).sum = 1 ∧
    (jobLevelsOf exC6Jobs).1.length ≤ 2 := by
  have h := claim_C6 exC6Jobs (fun s => if s = "deploy" then 1 else 0) (by decide)
  refine ⟨h.1, h.2.1 ("build") (by decide), ?_⟩
  have h4 := h.2.2.2
  have hlen : (exC6Jobs.map Prod.fst).length = 2 := by decide
  omega

/-- Claim C7: a dependency cycle (a nonempty set of declared jobs each
depending on another member of the set) makes every member survive to
the leftover set: some level-extraction step finds no ready job while
jobs remain, the loop stops early leaving those jobs unassigned, the
condition is surfaced as the circular-dependency warning rather than an
error (the analysis still returns a result), and the already-computed
levels are still aggregated into the result's details and
concurrencyCount. -/
theorem claim_C7 (jobs : List (String × WorkflowJob)) (c : List String)
    (p : String) (maxC : Nat)
    (hcyc : cycleSetWitness jobs c = true) :
    (∀ x ∈ c, x ∈ (jobLevelsOf jobs).2) ∧
    (jobLevelsOf jobs).2 ≠ [] ∧
    cycleWarningEmitted jobs = true ∧
    (analyzeWorkflow ⟨some jobs⟩ p maxC).details =
      (jobLevelsOf jobs).1.map (fun level =>
        { file := p
          jobs := level
          count := calculateLevelConcurrency level jobs (getMatrixProviders ⟨some jobs⟩)
          counted := true }) ∧
    (analyzeWorkflow ⟨some jobs⟩ p maxC).concurrencyCount =
      ((jobLevelsOf jobs).1.map (fun level =>
        calculateLevelConcurrency level jobs (getMatrixProviders ⟨some jobs⟩))).foldl
          Nat.max 0 := by
  unfold cycleSetWitness at hcyc
  rw [Bool.and_eq_true] at hcyc
  obtain ⟨hne', hall⟩ := hcyc
  have hne : c ≠ [] := by
    cases c with
    | nil => simp at hne'
    | cons a l => simp
  rw [List.all_eq_true] at hall
  have hsub : ∀ x ∈ c, x ∈ setOfList (jobs.map Prod.fst) := by
    intro x hx
    have h := hall x hx
    rw [Bool.and_eq_true] at h
    simpa using h.1
  have hdep : ∀ x ∈ c, ∀ deps,
      alookup (buildDependencyMap jobs) x = some deps → ∃ dep ∈ deps, dep ∈ c := by
    intro x hx deps hlook
    have h := hall x hx
    rw [Bool.and_eq_true] at h
    have h2 := h.2
    simp only [hlook] at h2
    rw [List.any_eq_true] at h2
    obtain ⟨dep, hdepmem, hdepc⟩ := h2
    exact ⟨dep, hdepmem, by simpa using hdepc⟩
  have hstuck : ∀ x ∈ c, x ∈ (jobLevelsOf jobs).2 := by
    rw [jobLevelsOf_eq_fuel]
    exact fun x hx =>
      fuel_cycle_stuck (buildDependencyMap jobs) c hne hdep _ _ hsub x hx
  have hne2 : (jobLevelsOf jobs).2 ≠ [] := by
    obtain ⟨x, hx⟩ := List.exists_mem_of_ne_nil c hne
    intro hnil
    have := hstuck x hx
    rw [hnil] at this
    simp at this
  refine ⟨hstuck, hne2, ?_, ?_, ?_⟩
  · have hempty : (jobLevelsOf jobs).2.isEmpty = false := by
      cases h : (jobLevelsOf jobs).2 with
      | nil => exact absurd h hne2
      | cons a l => rfl
    simp [cycleWarningEmitted, hempty]
  · rw [analyzeWorkflow_some]
  · rw [analyzeWorkflow_some]

/-- Witness for C7 on a concrete two-job circular workflow: both jobs stay
unassigned, the warning is emitted, and the result still carries the
(here empty) computed levels. -/
theorem claim_C7_witness :
    (jobLevelsOf exC7Jobs).2 ≠ [] ∧
    cycleWarningEmitted exC7Jobs = true ∧
    (analyzeWorkflow ⟨some exC7Jobs⟩ ("cyc.yml") 10).details = [] ∧
    (analyzeWorkflow ⟨some exC7Jobs⟩ ("cyc.yml") 10).concurrencyCount = 0 := by
  have h := claim_C7 exC7Jobs ["a", "b"] ("cyc.yml") 10 (by decide)
  have hlvls : (jobLevelsOf exC7Jobs).1 = [] := by
    rw [jobLevelsOf_eq_fuel]
    decide
  refine ⟨h.2.1, h.2.2.1, ?_, ?_⟩
  · rw [h.2.2.2.1, hlvls]
    rfl
  · rw [h.2.2.2.2, hlvls]
    rfl

/-- Claim C9: a dependency on an id that is not a declared job never
blocks layering — the level partition of a workflow equals the
partition obtained after deleting every undeclared id from every
dependency set (the unknown dependency behaves as already satisfied). -/
theorem claim_C9 (jobs : List (String × WorkflowJob)) :
    jobLevelsOf jobs =
      levelLoop (restrictDeps (buildDependencyMap jobs) (jobs.map Prod.fst))
        (setOfList (jobs.map Prod.fst)) := by
  rw [jobLevelsOf, levelLoop_eq_fuelLen, levelLoop_eq_fuelLen]
  exact (fuel_restrict (buildDependencyMap jobs) (jobs.map Prod.fst) _ _
    (fun x hx => (mem_setOfList _ x).mp hx)).symm

end WorkflowConcurrency
